import Mathlib

/-!
Shallow embedding of src/covid_data_utils.py.

Modelling conventions:
* A pandas DataFrame is a list of records (rows); column access becomes field
  access.
* Numeric cells are rationals; a possibly missing cell (NaN) is an Option.
* The date column is pre-parsed: a record carries some d (the day number of a
  parseable date string) or none (an unparseable date string).  The call
  pd.to_datetime at line 70, which raises on any unparseable date, is embedded
  as the error case of the pipeline.
* Python floats are modelled by rationals; rounding uses round-half-to-even as
  numpy and Python string formatting do.

The python source contains several slips that make parts of it invalid Python;
every place where a definition embeds the evidently intended statement instead
of an invalid literal token is marked with a comment naming the source line.
-/

/-- One raw input record of the dataset (one entity-date observation), with the
columns used by clean_covid_data.  Any numeric cell may be missing.  The date
field is the result of attempting to parse the date string: some d for a
parseable date (d a day number, ordered like calendar dates), none for an
unparseable one. -/
structure RawRecord where
  location : String
  date : Option ℤ
  total_cases : Option ℚ
  total_deaths : Option ℚ
  total_vaccinations : Option ℚ
  people_vaccinated : Option ℚ
  new_cases : Option ℚ
  new_deaths : Option ℚ
  population : Option ℚ
deriving DecidableEq

/-- A record after the date conversion of line 70 succeeded. -/
structure PRow where
  location : String
  date : ℤ
  total_cases : Option ℚ
  total_deaths : Option ℚ
  total_vaccinations : Option ℚ
  people_vaccinated : Option ℚ
  new_cases : Option ℚ
  new_deaths : Option ℚ
  population : Option ℚ
deriving DecidableEq

/-- A record after the imputation loop of lines 79-84: the six key numeric
columns are filled; population is not in the imputed column list and stays
possibly missing. -/
structure Row where
  location : String
  date : ℤ
  total_cases : ℚ
  total_deaths : ℚ
  total_vaccinations : ℚ
  people_vaccinated : ℚ
  new_cases : ℚ
  new_deaths : ℚ
  population : Option ℚ
deriving DecidableEq

/-- A fully cleaned record: lines 87-101 add the three derived metric columns. -/
structure CleanRow where
  location : String
  date : ℤ
  total_cases : ℚ
  total_deaths : ℚ
  total_vaccinations : ℚ
  people_vaccinated : ℚ
  new_cases : ℚ
  new_deaths : ℚ
  population : Option ℚ
  death_rate : ℚ
  vaccination_rate : ℚ
  cases_per_million : ℚ
deriving DecidableEq

/-- The six imputed columns of lines 76-77 (numeric_columns). -/
inductive ImpCol
  | tc | td | tv | pv | nc | nd
deriving DecidableEq

/-- Column projection of a parsed record. -/
def PRow.colv (r : PRow) : ImpCol → Option ℚ
  | ImpCol.tc => r.total_cases
  | ImpCol.td => r.total_deaths
  | ImpCol.tv => r.total_vaccinations
  | ImpCol.pv => r.people_vaccinated
  | ImpCol.nc => r.new_cases
  | ImpCol.nd => r.new_deaths

/-- Column projection of an imputed record. -/
def Row.colv (r : Row) : ImpCol → ℚ
  | ImpCol.tc => r.total_cases
  | ImpCol.td => r.total_deaths
  | ImpCol.tv => r.total_vaccinations
  | ImpCol.pv => r.people_vaccinated
  | ImpCol.nc => r.new_cases
  | ImpCol.nd => r.new_deaths

/-- The per-column carry of the forward fill: the last non-missing value seen
so far in the current entity group, for each of the six imputed columns. -/
structure Carry where
  total_cases : Option ℚ
  total_deaths : Option ℚ
  total_vaccinations : Option ℚ
  people_vaccinated : Option ℚ
  new_cases : Option ℚ
  new_deaths : Option ℚ
deriving DecidableEq

/-- Column projection of the carry. -/
def Carry.colv (c : Carry) : ImpCol → Option ℚ
  | ImpCol.tc => c.total_cases
  | ImpCol.td => c.total_deaths
  | ImpCol.tv => c.total_vaccinations
  | ImpCol.pv => c.people_vaccinated
  | ImpCol.nc => c.new_cases
  | ImpCol.nd => c.new_deaths

/-- Carry at the start of an entity group: nothing seen yet. -/
def Carry.start : Carry := ⟨none, none, none, none, none, none⟩

/-- One output row of the imputation: each of the six columns takes its own
value if present, else the carried value if any, else 0 (the fillna step of
line 84).  Population is copied unchanged. -/
def outRow (c : Carry) (r : PRow) : Row :=
  ⟨r.location, r.date,
   (r.total_cases.or c.total_cases).getD 0,
   (r.total_deaths.or c.total_deaths).getD 0,
   (r.total_vaccinations.or c.total_vaccinations).getD 0,
   (r.people_vaccinated.or c.people_vaccinated).getD 0,
   (r.new_cases.or c.new_cases).getD 0,
   (r.new_deaths.or c.new_deaths).getD 0,
   r.population⟩

/-- The carry after seeing a record: a present value replaces the carried one. -/
def nextCarry (c : Carry) (r : PRow) : Carry :=
  ⟨r.total_cases.or c.total_cases,
   r.total_deaths.or c.total_deaths,
   r.total_vaccinations.or c.total_vaccinations,
   r.people_vaccinated.or c.people_vaccinated,
   r.new_cases.or c.new_cases,
   r.new_deaths.or c.new_deaths⟩

/-- Forward fill of one entity group, carrying the last seen value per column.
Lines 79-84 of the source spell this as a pandas groupby fill.  The literal
call at line 82 is df_clean.groupby(loc)[col].fill(method=fill-string), and
.fill is not a pandas method; the adjacent source comment (Forward fill within
each country) and line 84 (fill remaining NaN with 0) fix the intended
semantics embedded here: last observation carried forward inside the group,
then 0 for cells with no prior observation. -/
def imputeGroupGo (c : Carry) : List PRow → List Row
  | [] => []
  | r :: rs => outRow c r :: imputeGroupGo (nextCarry c r) rs

/-- Split a list into maximal runs of records with equal key.  Applied to a
list sorted by location this yields exactly the pandas groupby(location)
groups, in order. -/
def runsBy (key : α → String) : List α → List (List α)
  | [] => []
  | a :: as =>
    match runsBy key as with
    | [] => [[a]]
    | [] :: gs => [a] :: gs
    | (b :: g) :: gs =>
      if key a = key b then (a :: b :: g) :: gs else [a] :: (b :: g) :: gs

/-- The imputation pass of lines 79-84 over the sorted record list: forward
fill within each entity group, then fill the remaining missing cells with 0. -/
def imputeAll (l : List PRow) : List Row :=
  ((runsBy (fun r => r.location) l).map (imputeGroupGo Carry.start)).flatten

/-- Round to the nearest integer, ties to even, as numpy round does. -/
def roundHalfEven (q : ℚ) : ℤ :=
  if Int.fract q < 1 / 2 then ⌊q⌋
  else if 1 / 2 < Int.fract q then ⌊q⌋ + 1
  else if ⌊q⌋ % 2 = 0 then ⌊q⌋ else ⌊q⌋ + 1

/-- numpy round(2): two decimal places, ties to even. -/
def round2 (q : ℚ) : ℚ := (roundHalfEven (q * 100) : ℚ) / 100

/-- numpy round(0): zero decimal places, ties to even. -/
def round0 (q : ℚ) : ℚ := (roundHalfEven q : ℚ)

/-- Lines 87-101: the three derived metric columns.  Each np.where keeps the
rounded ratio where the condition column holds and 0 elsewhere; a missing
population fails both population conditions (NaN comparisons are false), so
those rows get 0.  At line 99 the scaling constant of cases_per_million is the
invalid Python literal 1.000.000; the only reading consistent with the column
name is 1000000, embedded here. -/
def derive (r : Row) : CleanRow :=
  ⟨r.location, r.date, r.total_cases, r.total_deaths, r.total_vaccinations,
   r.people_vaccinated, r.new_cases, r.new_deaths, r.population,
   if 0 < r.total_cases then round2 (r.total_deaths / r.total_cases * 100) else 0,
   match r.population with
   | some p => if 0 < p then round2 (r.people_vaccinated / p * 100) else 0
   | none => 0,
   match r.population with
   | some p => if 0 < p then round0 (r.total_cases / p * 1000000) else 0
   | none => 0⟩

/-- Line 70: pd.to_datetime over the date column.  It raises as soon as any
date of the filtered frame is unparseable; hence the whole conversion yields
none if any record carries an unparseable date, and the parsed record list
otherwise. -/
def parseDates : List RawRecord → Option (List PRow)
  | [] => some []
  | r :: rs =>
    match r.date, parseDates rs with
    | some d, some ps =>
        some (⟨r.location, d, r.total_cases, r.total_deaths, r.total_vaccinations,
               r.people_vaccinated, r.new_cases, r.new_deaths, r.population⟩ :: ps)
    | _, _ => none

/-- The failure of clean_covid_data: pd.to_datetime raising on an unparseable
date at line 70 aborts the call.  This is the only failure path of the
function. -/
inductive CleanError
  | malformedDate
deriving DecidableEq

instance {ε α : Type} [DecidableEq ε] [DecidableEq α] : DecidableEq (Except ε α)
  | Except.ok x, Except.ok y =>
    match decEq x y with
    | isTrue h => isTrue (congrArg Except.ok h)
    | isFalse h => isFalse fun hh => h (Except.ok.inj hh)
  | Except.error x, Except.error y =>
    match decEq x y with
    | isTrue h => isTrue (congrArg Except.error h)
    | isFalse h => isFalse fun hh => h (Except.error.inj hh)
  | Except.ok _, Except.error _ => isFalse fun hh => Except.noConfusion hh
  | Except.error _, Except.ok _ => isFalse fun hh => Except.noConfusion hh

/-- Lines 61-62: the default focus country list. -/
def defaultFocus : List String :=
  ["United States", "India", "Kenya", "Germany", "Brazil"]

/-- The focus list actually used: the argument if given, else the default. -/
def focusOrDefault (focus_countries : Option (List String)) : List String :=
  focus_countries.getD defaultFocus

/-- Sort key order of line 73: by (location, date) ascending. -/
def keyLe (a b : String × ℤ) : Prop :=
  a.1 < b.1 ∨ (a.1 = b.1 ∧ a.2 ≤ b.2)

instance : DecidableRel keyLe := fun a b =>
  inferInstanceAs (Decidable (a.1 < b.1 ∨ (a.1 = b.1 ∧ a.2 ≤ b.2)))

/-- The (location, date) key of a parsed record. -/
def prowKey (r : PRow) : String × ℤ := (r.location, r.date)

/-- The (location, date) key of a cleaned record. -/
def cleanKey (r : CleanRow) : String × ℤ := (r.location, r.date)

/-- Line 73 comparison on parsed records. -/
def prowLe (a b : PRow) : Prop := keyLe (prowKey a) (prowKey b)

instance : DecidableRel prowLe := fun a b =>
  inferInstanceAs (Decidable (keyLe (prowKey a) (prowKey b)))

/-- Line 73 order on cleaned records (the order a cleaned frame is in). -/
def cleanLe (a b : CleanRow) : Prop := keyLe (cleanKey a) (cleanKey b)

instance : DecidableRel cleanLe := fun a b =>
  inferInstanceAs (Decidable (keyLe (cleanKey a) (cleanKey b)))

instance : IsTotal (String × ℤ) keyLe :=
  ⟨by
    intro a b
    rcases lt_trichotomy a.1 b.1 with h | h | h
    · exact Or.inl (Or.inl h)
    · rcases le_total a.2 b.2 with h2 | h2
      · exact Or.inl (Or.inr ⟨h, h2⟩)
      · exact Or.inr (Or.inr ⟨h.symm, h2⟩)
    · exact Or.inr (Or.inl h)⟩

instance : IsTrans (String × ℤ) keyLe :=
  ⟨by
    intro a b c hab hbc
    rcases hab with hab | ⟨hab, hab2⟩
    · rcases hbc with hbc | ⟨hbc, _⟩
      · exact Or.inl (lt_trans hab hbc)
      · exact Or.inl (hbc ▸ hab)
    · rcases hbc with hbc | ⟨hbc, hbc2⟩
      · exact Or.inl (hab ▸ hbc)
      · exact Or.inr ⟨hab.trans hbc, le_trans hab2 hbc2⟩⟩

instance : IsTotal PRow prowLe := ⟨fun a b => total_of keyLe (prowKey a) (prowKey b)⟩

instance : IsTrans PRow prowLe :=
  ⟨fun _ _ _ hab hbc => trans_of keyLe hab hbc⟩

/-- Lines 50-104, clean_covid_data: filter to the focus countries (line 67,
with the default of lines 61-62), convert the date column (line 70, aborting
on an unparseable date), stable sort by (location, date) (line 73; pandas
multi-column sort_values uses the stable lexsort), impute the six numeric
columns per entity group (lines 79-84), and add the derived metrics
(lines 87-101).  The status print of line 102 (itself an invalid f-string in
the source) has no effect on the returned frame and is not modelled. -/
def clean_covid_data (df : List RawRecord) (focus_countries : Option (List String)) :
    Except CleanError (List CleanRow) :=
  let focus := focusOrDefault focus_countries
  let filtered := df.filter (fun r => focus.contains r.location)
  match parseDates filtered with
  | none => Except.error CleanError.malformedDate
  | some parsed =>
      Except.ok ((imputeAll (List.insertionSort prowLe parsed)).map derive)

/-- The failure of get_country_summary: line 130 (iloc[-1]) raises on an
entity with zero rows in the frame; the specification names this failure
UnknownEntity. -/
inductive SummaryError
  | unknownEntity
deriving DecidableEq

/-- The summary mapping built at lines 132-142.  first_case_date uses the NaT
sentinel (none) when the entity has no row with positive total_cases. -/
structure CountrySummary where
  country : String
  total_cases : ℚ
  total_deaths : ℚ
  death_rate : ℚ
  vaccination_rate : ℚ
  cases_per_million : ℚ
  population : Option ℚ
  first_case_date : Option ℤ
  latest_date : ℤ
deriving DecidableEq

/-- pandas Series.min over a date column: the smallest date, or the NaT
sentinel (none) for an empty selection. -/
def dateMin : List ℤ → Option ℤ
  | [] => none
  | d :: ds => some (ds.foldl min d)

/-- Lines 118-143, get_country_summary.  Line 130 takes iloc[-1], the last row
of the filtered frame, raising on an empty selection (the unknownEntity
error).  Lines 134-138 of the source carry mismatched brackets; the evidently
intended field reads latest[col] are embedded.  Line 140 is the minimum date
among the rows of the entity with positive total_cases. -/
def get_country_summary (df : List CleanRow) (country : String) :
    Except SummaryError CountrySummary :=
  let country_data := df.filter (fun r => r.location == country)
  match country_data.getLast? with
  | none => Except.error SummaryError.unknownEntity
  | some latest =>
      Except.ok ⟨country, latest.total_cases, latest.total_deaths,
        latest.death_rate, latest.vaccination_rate, latest.cases_per_million,
        latest.population,
        dateMin ((country_data.filter (fun r => decide (0 < r.total_cases))).map
          (fun r => r.date)),
        latest.date⟩

/-- Python formatting of a number with one decimal place (the f-string .1f),
over the rational model: round half to even at one decimal. -/
def fmt1 (q : ℚ) : String :=
  let s := roundHalfEven (q * 10)
  (if s < 0 then ("-") else ("")) ++ toString (s.natAbs / 10) ++ "." ++ toString (s.natAbs % 10)

/-- Python formatting of a number with no decimal places (the f-string .0f). -/
def fmt0 (q : ℚ) : String :=
  let s := roundHalfEven q
  (if s < 0 then ("-") else ("")) ++ toString s.natAbs

/-- Lines 106-115, format_number.  The threshold and divisor literals are
written 1.000.000.000, 1.000.000 and 1.000 in the source, which are invalid
Python number tokens; the docstring (format large numbers with K, M, B
suffixes) fixes the intended powers of ten embedded here.  Line 116 (a
return df_clean after the if/else chain, every branch of which already
returns) is unreachable and has no effect. -/
def format_number (num : ℚ) : String :=
  if 1000000000 ≤ num then fmt1 (num / 1000000000) ++ "B"
  else if 1000000 ≤ num then fmt1 (num / 1000000) ++ "M"
  else if 1000 ≤ num then fmt1 (num / 1000) ++ "K"
  else fmt0 num

/-- One entry of a ranking: a location and its metric value (the two columns
selected at lines 175, 179, 183). -/
structure RankEntry where
  location : String
  value : ℚ
deriving DecidableEq

/-- The ascending=False comparison of sort_values on a metric column. -/
def descLe (a b : RankEntry) : Prop := b.value ≤ a.value

instance : DecidableRel descLe := fun a b =>
  inferInstanceAs (Decidable (b.value ≤ a.value))

/-- One ranking of lines 175-184: select (location, metric) and sort by the
metric descending.  The embedding uses a stable sort; numpy sorts segments
below sixteen elements by stable insertion sort, which covers the focus sets
this pipeline is used with. -/
def rankBy (metric : CleanRow → ℚ) (latest : List CleanRow) : List RankEntry :=
  List.insertionSort descLe (latest.map (fun r => RankEntry.mk r.location (metric r)))

/-- Line 159: groupby(location).last() over the cleaned frame.  On the sorted
cleaned frame the groups are the location runs and, the metric columns never
being missing after cleaning, last() is the last row of each run. -/
def latestPerLocation (df : List CleanRow) : List CleanRow :=
  (runsBy (fun r => r.location) df).filterMap List.getLast?

/-- The three rankings of the insights dictionary (lines 175-184). -/
structure Insights where
  death_rates : List RankEntry
  vaccination_rates : List RankEntry
  cases_per_million : List RankEntry
deriving DecidableEq

/-- Lines 145-186, generate_insights, restricted to the three rankings.  The
peak_cases block (lines 161-172) references a nonexistent attribute Columns at
line 165 and has a bracket mismatch at line 168, so it admits no faithful
embedding; the rankings do not depend on it. -/
def generate_insights (df : List CleanRow) : Insights :=
  let latest_data := latestPerLocation df
  ⟨rankBy (fun r => r.death_rate) latest_data,
   rankBy (fun r => r.vaccination_rate) latest_data,
   rankBy (fun r => r.cases_per_million) latest_data⟩

/-- Rebuild a raw record from a cleaned one (a cleaned frame fed back into
clean_covid_data): every imputed column is present and the date is the already
parsed day number. -/
def toRaw (r : CleanRow) : RawRecord :=
  ⟨r.location, some r.date, some r.total_cases, some r.total_deaths,
   some r.total_vaccinations, some r.people_vaccinated, some r.new_cases,
   some r.new_deaths, r.population⟩

/-- The parsed record underlying a cleaned one. -/
def pOfClean (r : CleanRow) : PRow :=
  ⟨r.location, r.date, some r.total_cases, some r.total_deaths,
   some r.total_vaccinations, some r.people_vaccinated, some r.new_cases,
   some r.new_deaths, r.population⟩

/-- The imputed record underlying a cleaned one (drop the derived columns). -/
def rowOfClean (r : CleanRow) : Row :=
  ⟨r.location, r.date, r.total_cases, r.total_deaths, r.total_vaccinations,
   r.people_vaccinated, r.new_cases, r.new_deaths, r.population⟩

/-- Strip the options of a parsed record, defaulting absent cells to 0. -/
def forceRow (p : PRow) : Row :=
  ⟨p.location, p.date, p.total_cases.getD 0, p.total_deaths.getD 0,
   p.total_vaccinations.getD 0, p.people_vaccinated.getD 0,
   p.new_cases.getD 0, p.new_deaths.getD 0, p.population⟩

/-- A possibly missing cell that is nonnegative if present. -/
def nnO (o : Option ℚ) : Prop := 0 ≤ o.getD 0

/-- All six imputed metric cells of a raw record are nonnegative where
present (the population column is left unconstrained). -/
def RawMetricsNonneg (r : RawRecord) : Prop :=
  nnO r.total_cases ∧ nnO r.total_deaths ∧ nnO r.total_vaccinations ∧
  nnO r.people_vaccinated ∧ nnO r.new_cases ∧ nnO r.new_deaths

/-- All six imputed cells of a parsed record are nonnegative where present. -/
def PRowNN (p : PRow) : Prop := ∀ col, nnO (p.colv col)

/-- All six imputed cells of an imputed record are nonnegative. -/
def RowNN (r : Row) : Prop := ∀ col, 0 ≤ r.colv col

/-! ### Structural lemmas about the embedded pipeline -/

theorem runsBy_flatten (key : α → String) : ∀ l : List α, (runsBy key l).flatten = l := by
  intro l
  induction l with
  | nil => rfl
  | cons a as ih =>
    rw [runsBy]
    rcases h : runsBy key as with _ | ⟨_ | ⟨b, g⟩, gs⟩ <;> rw [h] at ih
    · simp only [List.flatten] at ih ⊢
      simp [ih.symm]
    · simp only [List.flatten_cons, List.nil_append] at ih
      simp [List.flatten_cons, ih]
    · by_cases hk : key a = key b
      · simp only [if_pos hk, List.flatten_cons] at ih ⊢
        simp [ih]
      · simp only [if_neg hk, List.flatten_cons] at ih ⊢
        simp [ih]

theorem outRow_colv (c : Carry) (r : PRow) (col : ImpCol) :
    (outRow c r).colv col = ((r.colv col).or (c.colv col)).getD 0 := by
  cases col <;> rfl

theorem nextCarry_colv (c : Carry) (r : PRow) (col : ImpCol) :
    (nextCarry c r).colv col = (r.colv col).or (c.colv col) := by
  cases col <;> rfl

@[simp] theorem outRow_location (c : Carry) (r : PRow) :
    (outRow c r).location = r.location := rfl

@[simp] theorem outRow_date (c : Carry) (r : PRow) :
    (outRow c r).date = r.date := rfl

@[simp] theorem derive_location (r : Row) : (derive r).location = r.location := rfl

@[simp] theorem derive_date (r : Row) : (derive r).date = r.date := rfl

theorem imputeGroupGo_map_locdate (c : Carry) :
    ∀ g : List PRow,
      (imputeGroupGo c g).map (fun r => (r.location, r.date)) =
        g.map (fun p => (p.location, p.date)) := by
  intro g
  induction g generalizing c with
  | nil => rfl
  | cons r rs ih => simp [imputeGroupGo, ih]

theorem imputeAll_map_locdate (l : List PRow) :
    (imputeAll l).map (fun r => (r.location, r.date)) =
      l.map (fun p => (p.location, p.date)) := by
  unfold imputeAll
  rw [List.map_flatten, List.map_map]
  have h1 : ((runsBy (fun r => r.location) l).map
      ((List.map fun r => (r.location, r.date)) ∘ imputeGroupGo Carry.start)) =
      (runsBy (fun r => r.location) l).map (List.map fun p => (p.location, p.date)) := by
    apply List.map_congr_left
    intro g _
    exact imputeGroupGo_map_locdate Carry.start g
  rw [h1, ← List.map_flatten, runsBy_flatten]

theorem parseDates_map_loc :
    ∀ {l : List RawRecord} {ps : List PRow}, parseDates l = some ps →
      ps.map (fun p => p.location) = l.map (fun r => r.location) := by
  intro l
  induction l with
  | nil => intro ps h; cases h; rfl
  | cons r rs ih =>
    intro ps h
    rw [parseDates] at h
    match hd : r.date, hp : parseDates rs with
    | some d, some qs =>
      rw [hd, hp] at h
      cases h
      simp [ih hp]
    | some d, none => rw [hd, hp] at h; cases h
    | none, _ => rw [hd] at h; cases h

theorem parseDates_none_of_mem :
    ∀ {l : List RawRecord} {r : RawRecord}, r ∈ l → r.date = none →
      parseDates l = none := by
  intro l
  induction l with
  | nil => intro r h; cases h
  | cons a as ih =>
    intro r hmem hdate
    rw [parseDates]
    rcases List.mem_cons.1 hmem with h | h
    · subst h
      rw [hdate]
    · rw [ih h hdate]
      rcases a.date with _ | d <;> rfl

theorem clean_ok_shape {df : List RawRecord} {fo : Option (List String)}
    {rows : List CleanRow} (h : clean_covid_data df fo = Except.ok rows) :
    ∃ parsed,
      parseDates (df.filter (fun r => (focusOrDefault fo).contains r.location)) =
        some parsed ∧
      rows = (imputeAll (List.insertionSort prowLe parsed)).map derive := by
  unfold clean_covid_data at h
  dsimp only at h
  rcases hp : parseDates (df.filter (fun r => (focusOrDefault fo).contains r.location)) with
    _ | parsed
  · rw [hp] at h
    cases h
  · rw [hp] at h
    cases h
    exact ⟨parsed, rfl, rfl⟩

theorem imputeGroupGo_carry_fill (col : ImpCol) {v : ℚ} :
    ∀ (g : List PRow) (c : Carry) (i : ℕ),
      c.colv col = some v →
      (∀ k rk, k ≤ i → g[k]? = some rk → rk.colv col = none) →
      i < g.length →
      ∃ ri, (imputeGroupGo c g)[i]? = some ri ∧ ri.colv col = v := by
  intro g
  induction g with
  | nil =>
    intro c i _ _ hi
    simp at hi
  | cons r rs ih =>
    intro c i hc hmiss hi
    cases i with
    | zero =>
      refine ⟨outRow c r, by simp [imputeGroupGo], ?_⟩
      rw [outRow_colv, hmiss 0 r (le_refl 0) (by simp), Option.none_or, hc]
      rfl
    | succ i =>
      have hr : r.colv col = none := hmiss 0 r (Nat.zero_le _) (by simp)
      have hc2 : (nextCarry c r).colv col = some v := by
        rw [nextCarry_colv, hr, Option.none_or, hc]
      have hmiss2 : ∀ k rk, k ≤ i → rs[k]? = some rk → rk.colv col = none := by
        intro k rk hk hget
        exact hmiss (k + 1) rk (Nat.succ_le_succ hk) (by simpa using hget)
      have hi2 : i < rs.length := Nat.lt_of_succ_lt_succ (by simpa using hi)
      obtain ⟨ri, h1, h2⟩ := ih (nextCarry c r) i hc2 hmiss2 hi2
      refine ⟨ri, ?_, h2⟩
      simpa [imputeGroupGo] using h1

theorem imputeGroupGo_ffill_aux (col : ImpCol) {v : ℚ} :
    ∀ (g : List PRow) (c : Carry) (j i : ℕ) (rj : PRow),
      j < i → g[j]? = some rj → rj.colv col = some v →
      (∀ k rk, j < k → k ≤ i → g[k]? = some rk → rk.colv col = none) →
      i < g.length →
      ∃ ri, (imputeGroupGo c g)[i]? = some ri ∧ ri.colv col = v := by
  intro g
  induction g with
  | nil =>
    intro c j i rj _ hj
    simp at hj
  | cons r rs ih =>
    intro c j i rj hji hj hjv hmiss hi
    cases j with
    | zero =>
      have hr : r = rj := by simpa using hj
      subst hr
      cases i with
      | zero => exact absurd hji (lt_irrefl 0)
      | succ i =>
        have hc2 : (nextCarry c r).colv col = some v := by
          rw [nextCarry_colv, hjv]
          rfl
        have hmiss2 : ∀ k rk, k ≤ i → rs[k]? = some rk → rk.colv col = none := by
          intro k rk hk hget
          exact hmiss (k + 1) rk (Nat.succ_pos k) (Nat.succ_le_succ hk)
            (by simpa using hget)
        have hi2 : i < rs.length := Nat.lt_of_succ_lt_succ (by simpa using hi)
        obtain ⟨ri, h1, h2⟩ := imputeGroupGo_carry_fill col rs (nextCarry c r) i hc2 hmiss2 hi2
        refine ⟨ri, ?_, h2⟩
        simpa [imputeGroupGo] using h1
    | succ j =>
      cases i with
      | zero => exact absurd hji (Nat.not_lt_zero _)
      | succ i =>
        have hji2 : j < i := Nat.lt_of_succ_lt_succ hji
        have hj2 : rs[j]? = some rj := by simpa using hj
        have hmiss2 : ∀ k rk, j < k → k ≤ i → rs[k]? = some rk → rk.colv col = none := by
          intro k rk hk1 hk2 hget
          exact hmiss (k + 1) rk (Nat.succ_lt_succ hk1) (Nat.succ_le_succ hk2)
            (by simpa using hget)
        have hi2 : i < rs.length := Nat.lt_of_succ_lt_succ (by simpa using hi)
        obtain ⟨ri, h1, h2⟩ := ih (nextCarry c r) j i rj hji2 hj2 hjv hmiss2 hi2
        refine ⟨ri, ?_, h2⟩
        simpa [imputeGroupGo] using h1

/-- C1: within an entity group of the cleaned dataset, taken in ascending date
order, the imputation is forward fill: if row i is missing one of the six
imputed columns and some earlier row j < i of the group has a value there,
with every row strictly between j and i (and row i itself) missing it, then
the imputed row i carries exactly the value of row j, the nearest earlier
observation (not 0 and not any later value); the fill carry starts empty at
the head of each group, so a cell missing with no prior observation becomes 0. -/
theorem clean_forward_fill_law (g : List PRow) (col : ImpCol) (i j : ℕ)
    (rj : PRow) (v : ℚ) (hji : j < i) (hj : g[j]? = some rj)
    (hjv : rj.colv col = some v)
    (hmiss : ∀ k rk, j < k → k ≤ i → g[k]? = some rk → rk.colv col = none)
    (hi : i < g.length) :
    ∃ ri, (imputeGroupGo Carry.start g)[i]? = some ri ∧ ri.colv col = v :=
  imputeGroupGo_ffill_aux col g Carry.start j i rj hji hj hjv hmiss hi

/-- A three row entity group: total_cases observed at the first row only. -/
def ffillG : List PRow :=
  [⟨"Kenya", 1, some 3, none, none, none, none, none, none⟩,
   ⟨"Kenya", 2, none, none, none, none, none, none, none⟩,
   ⟨"Kenya", 3, none, none, none, none, none, none, none⟩]

/-- Witness for the forward fill law on a concrete three row group. -/
theorem clean_forward_fill_law_witness :
    ∃ ri, (imputeGroupGo Carry.start ffillG)[2]? = some ri ∧ ri.colv ImpCol.tc = 3 :=
  clean_forward_fill_law ffillG ImpCol.tc 2 0
    ⟨"Kenya", 1, some 3, none, none, none, none, none, none⟩ 3
    (by omega) (by rfl) (by rfl)
    (by
      intro k rk h1 h2 hget
      interval_cases k <;>
        simp only [ffillG, List.getElem?_cons_succ, List.getElem?_cons_zero,
          Option.some.injEq] at hget <;>
        exact hget ▸ rfl)
    (by simp [ffillG])

/-- The example record of the specification: entity A, 100 cases, 2 deaths,
population 1000. -/
def exampleRawA : RawRecord :=
  ⟨"A", some 1, some 100, some 2, none, none, none, none, some 1000⟩

/-- C2: the derived metrics of the cleaned frame follow lines 87-101: on the
specification example (total_cases 100, total_deaths 2, population 1000) the
cleaned row carries death_rate 2 (2 deaths per 100 cases, rounded to two
decimals), vaccination_rate 0 (people_vaccinated imputed to 0), and
cases_per_million 100000 (100 cases in a population of 1000, scaled by one
million and rounded to an integer). -/
theorem clean_derived_metrics_example :
    clean_covid_data [exampleRawA] (some ["A"]) =
      Except.ok [⟨"A", 1, 100, 2, 0, 0, 0, 0, some 1000, 2, 0, 100000⟩] := by
  norm_num [clean_covid_data, focusOrDefault, parseDates, imputeAll, runsBy,
    imputeGroupGo, outRow, nextCarry, Carry.start, derive, round2, round0,
    roundHalfEven, Int.fract, exampleRawA]

/-- C7: format_number renders with B, M, K suffixes at the thresholds 1e9,
1e6, 1e3, dividing by the matching power of ten and keeping one decimal, and
renders smaller numbers with no decimals; the comparisons are
greater-or-equal, so exactly one million renders as 1.0M and not 1000.0K;
concretely 1500 renders as 1.5K, 2300000000 as 2.3B, and 42 as 42. -/
theorem format_number_examples :
    format_number 1000000 = "1.0M" ∧ format_number 1500 = "1.5K" ∧
    format_number 2300000000 = "2.3B" ∧ format_number 42 = "42" := by
  refine ⟨?_, ?_, ?_, ?_⟩ <;>
    · norm_num [format_number, fmt1, fmt0, roundHalfEven, Int.fract]
      try rfl

/-- C5 counterexample: on a one record dataset, clean called with an empty
focus list returns the empty cleaned frame instead of failing with an
EmptyFocusSet error: no such check exists in clean_covid_data. -/
theorem clean_empty_focus_counterexample :
    clean_covid_data [exampleRawA] (some []) = Except.ok [] := rfl

/-- C5 (amended): for every dataset, clean called with an empty focus list
returns the empty cleaned frame.  Lines 61-62 only substitute the default
when no focus list is given at all; an empty list reaches the filter of
line 67, every row is dropped, and the pipeline completes on zero rows
without any error. -/
theorem clean_empty_focus_returns_empty (df : List RawRecord) :
    clean_covid_data df (some []) = Except.ok [] := by
  unfold clean_covid_data
  dsimp only
  have h : df.filter (fun r => (focusOrDefault (some [])).contains r.location) = [] := by
    simp [focusOrDefault]
  rw [h]
  rfl

/-- A Kenya record whose date string does not parse. -/
def malformedKenya : RawRecord :=
  ⟨"Kenya", none, some 5, none, none, none, none, none, some 100⟩

/-- C4 counterexample: on a dataset with one well formed Kenya record and one
Kenya record with an unparseable date, clean fails outright (the
pd.to_datetime call of line 70 raises) instead of dropping the bad record and
returning the cleaned one row remainder. -/
theorem clean_malformed_date_counterexample :
    clean_covid_data
      [⟨"Kenya", some 1, some 10, none, none, none, none, none, some 100⟩,
       malformedKenya]
      (some ["Kenya"]) = Except.error CleanError.malformedDate := rfl

/-- C4 (amended): whenever some record of the dataset lies in the focus set
and has an unparseable date, clean fails with the date error for the whole
call: line 70 converts the full filtered date column at once and raises on
the first unparseable entry, so no cleaned frame is returned and no record is
dropped (records outside the focus set are removed by the filter of line 67
regardless of their dates). -/
theorem clean_aborts_on_malformed_date
    (df : List RawRecord) (fo : Option (List String)) (r : RawRecord)
    (hmem : r ∈ df) (hfoc : (focusOrDefault fo).contains r.location = true)
    (hdate : r.date = none) :
    clean_covid_data df fo = Except.error CleanError.malformedDate := by
  unfold clean_covid_data
  dsimp only
  have hr : r ∈ df.filter (fun x => (focusOrDefault fo).contains x.location) :=
    List.mem_filter.2 ⟨hmem, hfoc⟩
  rw [parseDates_none_of_mem hr hdate]

/-- Witness for the abort law at a concrete malformed record. -/
theorem clean_aborts_on_malformed_date_witness :
    clean_covid_data [malformedKenya] none = Except.error CleanError.malformedDate :=
  clean_aborts_on_malformed_date [malformedKenya] none malformedKenya
    (List.mem_singleton.2 rfl) rfl rfl

theorem imputeAll_map_loc (l : List PRow) :
    (imputeAll l).map (fun r => r.location) = l.map (fun p => p.location) := by
  have h := congrArg (List.map Prod.fst) (imputeAll_map_locdate l)
  simpa [List.map_map, Function.comp] using h

theorem clean_ok_locs {df : List RawRecord} {fo : Option (List String)}
    {rows : List CleanRow} (h : clean_covid_data df fo = Except.ok rows) :
    ∀ r ∈ rows, (focusOrDefault fo).contains r.location = true := by
  obtain ⟨parsed, hp, hrows⟩ := clean_ok_shape h
  subst hrows
  intro r hr
  obtain ⟨q, hq, hqr⟩ := List.mem_map.1 hr
  have hloc : r.location = q.location := by
    rw [← hqr]
    rfl
  have h2 : q.location ∈
      (imputeAll (List.insertionSort prowLe parsed)).map (fun r => r.location) :=
    List.mem_map_of_mem _ hq
  rw [imputeAll_map_loc] at h2
  have h3 : q.location ∈ parsed.map (fun p => p.location) := by
    have hperm := (List.perm_insertionSort prowLe parsed).map (fun p : PRow => p.location)
    exact hperm.mem_iff.1 h2
  rw [parseDates_map_loc hp] at h3
  obtain ⟨w, hw, hwl⟩ := List.mem_map.1 h3
  have hwf := (List.mem_filter.1 hw).2
  rw [hloc, ← hwl]
  exact hwf

/-- C10: called without an explicit focus list, clean uses exactly the five
default entities United States, India, Kenya, Germany, Brazil of lines 61-62,
so every row of the returned cleaned frame has one of these five locations. -/
theorem clean_default_focus_filter (df : List RawRecord) (rows : List CleanRow)
    (h : clean_covid_data df none = Except.ok rows) :
    ∀ r ∈ rows,
      r.location ∈ (["United States", "India", "Kenya", "Germany", "Brazil"] : List String) := by
  intro r hr
  have hc := clean_ok_locs h r hr
  have hm : r.location ∈ focusOrDefault none := List.elem_iff.1 hc
  simpa [focusOrDefault, defaultFocus] using hm

/-- A two record dataset: one default focus entity, one other entity. -/
def mixedDf : List RawRecord :=
  [⟨"Kenya", some 1, none, none, none, none, none, none, none⟩,
   ⟨"France", some 1, some 7, none, none, none, none, none, some 50⟩]

/-- The cleaned row that clean produces from mixedDf with the default focus. -/
def kenyaCleanRow : CleanRow := ⟨"Kenya", 1, 0, 0, 0, 0, 0, 0, none, 0, 0, 0⟩

/-- Witness for the default focus law: the France record is dropped and the
remaining row carries a default focus location. -/
theorem clean_default_focus_filter_witness :
    kenyaCleanRow.location ∈
      (["United States", "India", "Kenya", "Germany", "Brazil"] : List String) :=
  clean_default_focus_filter mixedDf [kenyaCleanRow] rfl kenyaCleanRow
    (List.mem_singleton.2 rfl)

instance (o : Option ℚ) : Decidable (nnO o) :=
  inferInstanceAs (Decidable (0 ≤ o.getD 0))

instance (r : RawRecord) : Decidable (RawMetricsNonneg r) :=
  inferInstanceAs (Decidable (_ ∧ _ ∧ _ ∧ _ ∧ _ ∧ _))

theorem nnO_or {a b : Option ℚ} (ha : nnO a) (hb : nnO b) : nnO (a.or b) := by
  cases a with
  | none => simpa [Option.or] using hb
  | some x => simpa [Option.or, nnO] using ha

/-- The carry is nonnegative where present. -/
def CarryNN (c : Carry) : Prop := ∀ col, nnO (c.colv col)

theorem carryNN_start : CarryNN Carry.start := by
  intro col
  cases col <;> simp [Carry.start, Carry.colv, nnO]

theorem parseDates_nn :
    ∀ {l : List RawRecord} {ps : List PRow},
      (∀ r ∈ l, RawMetricsNonneg r) → parseDates l = some ps →
      ∀ p ∈ ps, PRowNN p := by
  intro l
  induction l with
  | nil =>
    intro ps _ h p hp
    cases h
    cases hp
  | cons r rs ih =>
    intro ps hnn h p hp
    rw [parseDates] at h
    match hd : r.date, hq : parseDates rs with
    | some d, some qs =>
      rw [hd, hq] at h
      cases h
      rcases List.mem_cons.1 hp with h | h
      · subst h
        obtain ⟨h1, h2, h3, h4, h5, h6⟩ := hnn r (List.mem_cons_self r rs)
        intro col
        cases col
        exacts [h1, h2, h3, h4, h5, h6]
      · exact ih (fun x hx => hnn x (List.mem_cons_of_mem _ hx)) hq p h
    | some d, none =>
      rw [hd, hq] at h
      cases h
    | none, _ =>
      rw [hd] at h
      cases h

theorem imputeGroupGo_nn :
    ∀ (g : List PRow) (c : Carry), CarryNN c → (∀ p ∈ g, PRowNN p) →
      ∀ r ∈ imputeGroupGo c g, RowNN r := by
  intro g
  induction g with
  | nil =>
    intro c _ _ r hr
    cases hr
  | cons p ps ih =>
    intro c hc hg r hr
    rcases List.mem_cons.1 hr with h | h
    · subst h
      intro col
      rw [outRow_colv]
      exact nnO_or (hg p (List.mem_cons_self p ps) col) (hc col)
    · refine ih (nextCarry c p) ?_ (fun x hx => hg x (List.mem_cons_of_mem _ hx)) r h
      intro col
      rw [nextCarry_colv]
      exact nnO_or (hg p (List.mem_cons_self p ps) col) (hc col)

theorem imputeAll_nn {l : List PRow} (hl : ∀ p ∈ l, PRowNN p) :
    ∀ r ∈ imputeAll l, RowNN r := by
  intro r hr
  unfold imputeAll at hr
  obtain ⟨rowsG, hG, hrG⟩ := List.mem_flatten.1 hr
  obtain ⟨g, hg, hgr⟩ := List.mem_map.1 hG
  subst hgr
  refine imputeGroupGo_nn g Carry.start carryNN_start ?_ r hrG
  intro p hp
  apply hl
  have hpl : p ∈ (runsBy (fun r => r.location) l).flatten := List.mem_flatten.2 ⟨g, hg, hp⟩
  rwa [runsBy_flatten] at hpl

theorem roundHalfEven_nonneg {q : ℚ} (hq : 0 ≤ q) : 0 ≤ roundHalfEven q := by
  have hf : (0 : ℤ) ≤ ⌊q⌋ := Int.floor_nonneg.2 hq
  unfold roundHalfEven
  split
  · exact hf
  · split
    · omega
    · split
      · exact hf
      · omega

theorem round2_nonneg {q : ℚ} (hq : 0 ≤ q) : 0 ≤ round2 q := by
  unfold round2
  have h : (0 : ℤ) ≤ roundHalfEven (q * 100) :=
    roundHalfEven_nonneg (mul_nonneg hq (by norm_num))
  exact div_nonneg (by exact_mod_cast h) (by norm_num)

theorem round0_nonneg {q : ℚ} (hq : 0 ≤ q) : 0 ≤ round0 q := by
  unfold round0
  exact_mod_cast roundHalfEven_nonneg hq

theorem derive_nn {r : Row} (hr : RowNN r) :
    0 ≤ (derive r).death_rate ∧ 0 ≤ (derive r).vaccination_rate ∧
      0 ≤ (derive r).cases_per_million := by
  have htd : 0 ≤ r.total_deaths := hr ImpCol.td
  have htc : 0 ≤ r.total_cases := hr ImpCol.tc
  have hpv : 0 ≤ r.people_vaccinated := hr ImpCol.pv
  refine ⟨?_, ?_, ?_⟩
  · show 0 ≤ (if 0 < r.total_cases then round2 (r.total_deaths / r.total_cases * 100) else 0)
    split
    · exact round2_nonneg (mul_nonneg (div_nonneg htd htc) (by norm_num))
    · exact le_refl 0
  · show (0 : ℚ) ≤ (match r.population with
      | some p => if 0 < p then round2 (r.people_vaccinated / p * 100) else 0
      | none => (0 : ℚ))
    rcases r.population with _ | p
    · exact le_refl 0
    · dsimp only
      split
      · next hp => exact round2_nonneg (mul_nonneg (div_nonneg hpv (le_of_lt hp)) (by norm_num))
      · exact le_refl 0
  · show (0 : ℚ) ≤ (match r.population with
      | some p => if 0 < p then round0 (r.total_cases / p * 1000000) else 0
      | none => (0 : ℚ))
    rcases r.population with _ | p
    · exact le_refl 0
    · dsimp only
      split
      · next hp => exact round0_nonneg (mul_nonneg (div_nonneg htc (le_of_lt hp)) (by norm_num))
      · exact le_refl 0

/-- C3 counterexample: a record with negative total_deaths (and positive
total_cases) gives a cleaned row whose death_rate is negative: the derived
metrics are not nonnegative for arbitrary numeric input values, refuting the
unconditional nonnegativity claim. -/
theorem derived_metrics_negative_counterexample :
    clean_covid_data
        [⟨"Kenya", some 1, some 100, some (-5), none, none, none, none, some 1000⟩]
        (some ["Kenya"]) =
      Except.ok [⟨"Kenya", 1, 100, -5, 0, 0, 0, 0, some 1000, -5, 0, 100000⟩] ∧
      ¬(0 : ℚ) ≤ -5 := by
  constructor
  · norm_num [clean_covid_data, focusOrDefault, parseDates, imputeAll, runsBy,
      imputeGroupGo, outRow, nextCarry, Carry.start, derive, round2, round0,
      roundHalfEven, Int.fract]
  · norm_num

/-- C3 (amended): every row of a cleaned frame has the three derived metrics
present by construction, and they are all nonnegative provided every present
metric cell of the input dataset is nonnegative; a denominator that is zero,
negative or missing yields the value 0.  (Unconditionally the metrics are
present but can be negative when an input cell is negative, see the
counterexample.) -/
theorem derived_metrics_nonneg (df : List RawRecord) (fo : Option (List String))
    (rows : List CleanRow) (h : clean_covid_data df fo = Except.ok rows)
    (hnn : ∀ r ∈ df, RawMetricsNonneg r) :
    ∀ r ∈ rows,
      0 ≤ r.death_rate ∧ 0 ≤ r.vaccination_rate ∧ 0 ≤ r.cases_per_million := by
  obtain ⟨parsed, hp, hrows⟩ := clean_ok_shape h
  subst hrows
  intro r hr
  obtain ⟨q, hq, hqr⟩ := List.mem_map.1 hr
  subst hqr
  refine derive_nn ?_
  refine imputeAll_nn ?_ q hq
  intro p hpmem
  have hp2 : p ∈ parsed := ((List.perm_insertionSort prowLe parsed).mem_iff).1 hpmem
  refine parseDates_nn ?_ hp p hp2
  intro x hx
  exact hnn x (List.mem_filter.1 hx).1

/-- Witness for the conditional nonnegativity of the derived metrics on the
specification example dataset. -/
theorem derived_metrics_nonneg_witness :
    (∀ r ∈ [exampleRawA], RawMetricsNonneg r) ∧
    (∀ r ∈ [(⟨"A", 1, 100, 2, 0, 0, 0, 0, some 1000, 2, 0, 100000⟩ : CleanRow)],
      0 ≤ r.death_rate ∧ 0 ≤ r.vaccination_rate ∧ 0 ≤ r.cases_per_million) := by
  constructor
  · decide
  · exact derived_metrics_nonneg [exampleRawA] (some ["A"]) _
      (by norm_num [clean_covid_data, focusOrDefault, parseDates, imputeAll, runsBy,
        imputeGroupGo, outRow, nextCarry, Carry.start, derive, round2, round0,
        roundHalfEven, Int.fract, exampleRawA])
      (by decide)

theorem pairwise_getLast_max {R : α → α → Prop} :
    ∀ {l : List α}, List.Pairwise R l → ∀ {x : α}, l.getLast? = some x →
      ∀ y ∈ l, y = x ∨ R y x := by
  intro l
  induction l with
  | nil =>
    intro _ x hx
    cases hx
  | cons a as ih =>
    intro h x hx y hy
    cases as with
    | nil =>
      have hax : a = x := by
        simpa [List.getLast?] using hx
      rcases List.mem_singleton.1 hy with rfl
      exact Or.inl hax
    | cons b bs =>
      rw [List.getLast?_cons_cons] at hx
      rcases List.mem_cons.1 hy with rfl | hy2
      · have hxin : x ∈ b :: bs := List.mem_of_mem_getLast? hx
        exact Or.inr ((List.pairwise_cons.1 h).1 x hxin)
      · exact ih (List.pairwise_cons.1 h).2 hx y hy2

theorem foldl_min_le_init : ∀ (ds : List ℤ) (a : ℤ), ds.foldl min a ≤ a := by
  intro ds
  induction ds with
  | nil =>
    intro a
    simp
  | cons d ds ih =>
    intro a
    calc (d :: ds).foldl min a = ds.foldl min (min a d) := rfl
    _ ≤ min a d := ih (min a d)
    _ ≤ a := min_le_left a d

theorem foldl_min_le_mem : ∀ (ds : List ℤ) (a : ℤ), ∀ x ∈ ds, ds.foldl min a ≤ x := by
  intro ds
  induction ds with
  | nil =>
    intro a x hx
    cases hx
  | cons d ds ih =>
    intro a x hx
    rcases List.mem_cons.1 hx with rfl | hx2
    · exact le_trans (foldl_min_le_init ds (min a x)) (min_le_right a x)
    · exact ih (min a d) x hx2

theorem foldl_min_mem : ∀ (ds : List ℤ) (a : ℤ), ds.foldl min a = a ∨ ds.foldl min a ∈ ds := by
  intro ds
  induction ds with
  | nil =>
    intro a
    exact Or.inl rfl
  | cons d ds ih =>
    intro a
    rcases ih (min a d) with h | h
    · rcases min_choice a d with hm | hm
      · exact Or.inl (by
          rw [show (d :: ds).foldl min a = ds.foldl min (min a d) from rfl, h, hm])
      · exact Or.inr (by
          rw [show (d :: ds).foldl min a = ds.foldl min (min a d) from rfl, h, hm]
          exact List.mem_cons_self d ds)
    · exact Or.inr (List.mem_cons_of_mem d h)

theorem dateMin_mem : ∀ {l : List ℤ} {d : ℤ}, dateMin l = some d → d ∈ l := by
  intro l d h
  cases l with
  | nil => cases h
  | cons a as =>
    rw [dateMin] at h
    have hd : as.foldl min a = d := by
      injection h
    rcases foldl_min_mem as a with h2 | h2
    · rw [hd] at h2
      exact h2 ▸ List.mem_cons_self a as
    · rw [hd] at h2
      exact List.mem_cons_of_mem a h2

theorem dateMin_le : ∀ {l : List ℤ} {d : ℤ}, dateMin l = some d → ∀ x ∈ l, d ≤ x := by
  intro l d h x hx
  cases l with
  | nil => cases hx
  | cons a as =>
    rw [dateMin] at h
    have hd : as.foldl min a = d := by
      injection h
    rcases List.mem_cons.1 hx with rfl | hx2
    · exact hd ▸ foldl_min_le_init as x
    · exact hd ▸ foldl_min_le_mem as a x hx2

theorem dateMin_eq_none : ∀ {l : List ℤ}, dateMin l = none → l = [] := by
  intro l h
  cases l with
  | nil => rfl
  | cons a as => cases h

/-- C6: over a cleaned frame (sorted by location and date), get_country_summary
fails exactly on an entity with zero rows (the UnknownEntity failure, realised
in the source as the iloc[-1] exception on an empty selection); on an entity
with at least one row it returns the values of the chronologically last row of
that entity as latest (a row of the entity whose date bounds every date of the
entity from above), and first_case_date is the minimum date among the rows of
the entity with positive total_cases, with the explicit none sentinel (not an
error) when no such row exists. -/
theorem country_summary_correct (rows : List CleanRow) (c : String)
    (hs : List.Pairwise cleanLe rows) :
    (get_country_summary rows c = Except.error SummaryError.unknownEntity ↔
      ∀ r ∈ rows, r.location ≠ c) ∧
    (∀ s, get_country_summary rows c = Except.ok s →
      (∃ r ∈ rows, r.location = c ∧ s.latest_date = r.date ∧
        s.total_cases = r.total_cases ∧ s.total_deaths = r.total_deaths ∧
        s.death_rate = r.death_rate ∧ s.vaccination_rate = r.vaccination_rate ∧
        s.cases_per_million = r.cases_per_million ∧ s.population = r.population) ∧
      (∀ r ∈ rows, r.location = c → r.date ≤ s.latest_date) ∧
      (∀ d, s.first_case_date = some d →
        (∃ r ∈ rows, r.location = c ∧ 0 < r.total_cases ∧ r.date = d) ∧
        (∀ r ∈ rows, r.location = c → 0 < r.total_cases → d ≤ r.date)) ∧
      (s.first_case_date = none →
        ∀ r ∈ rows, r.location = c → ¬0 < r.total_cases)) := by
  have hcd : ∀ r : CleanRow,
      r ∈ rows.filter (fun r => r.location == c) ↔ (r ∈ rows ∧ r.location = c) := by
    intro r
    rw [List.mem_filter]
    simp only [beq_iff_eq]
  unfold get_country_summary
  dsimp only
  rcases hlast : (rows.filter (fun r => r.location == c)).getLast? with _ | latest
  · rw [hlast]
    constructor
    · constructor
      · intro _ r hr hloc
        have hmem : r ∈ rows.filter (fun r => r.location == c) := (hcd r).2 ⟨hr, hloc⟩
        rw [List.getLast?_eq_none_iff.1 hlast] at hmem
        cases hmem
      · intro _
        rfl
    · intro s hsok
      cases hsok
  · rw [hlast]
    have hlin : latest ∈ rows.filter (fun r => r.location == c) :=
      List.mem_of_mem_getLast? hlast
    have hlrows : latest ∈ rows := ((hcd latest).1 hlin).1
    have hlloc : latest.location = c := ((hcd latest).1 hlin).2
    constructor
    · constructor
      · intro hbad
        cases hbad
      · intro hall
        exact absurd hlloc (hall latest hlrows)
    · intro s hsok
      cases hsok
      refine ⟨⟨latest, hlrows, hlloc, rfl, rfl, rfl, rfl, rfl, rfl, rfl⟩, ?_, ?_, ?_⟩
      · intro r hr hloc
        have hrin : r ∈ rows.filter (fun r => r.location == c) := (hcd r).2 ⟨hr, hloc⟩
        have hP : List.Pairwise cleanLe (rows.filter (fun r => r.location == c)) :=
          List.Pairwise.filter _ hs
        rcases pairwise_getLast_max hP hlast r hrin with rfl | hRl
        · exact le_refl _
        · have h2 : r.location < latest.location ∨
              (r.location = latest.location ∧ r.date ≤ latest.date) := hRl
          rcases h2 with hlt | ⟨_, hle⟩
          · rw [hloc, hlloc] at hlt
            exact absurd hlt (lt_irrefl c)
          · exact hle
      · intro d hd
        constructor
        · have hdm := dateMin_mem hd
          obtain ⟨r, hrf, hrd⟩ := List.mem_map.1 hdm
          obtain ⟨hrcd, hrpos⟩ := List.mem_filter.1 hrf
          exact ⟨r, ((hcd r).1 hrcd).1, ((hcd r).1 hrcd).2, of_decide_eq_true hrpos, hrd⟩
        · intro r hr hloc hpos
          have hrin : r ∈ rows.filter (fun r => r.location == c) := (hcd r).2 ⟨hr, hloc⟩
          have hrf : r ∈ (rows.filter (fun r => r.location == c)).filter
              (fun r => decide (0 < r.total_cases)) :=
            List.mem_filter.2 ⟨hrin, decide_eq_true hpos⟩
          exact dateMin_le hd r.date (List.mem_map_of_mem _ hrf)
      · intro hnone r hr hloc hpos
        have hrin : r ∈ rows.filter (fun r => r.location == c) := (hcd r).2 ⟨hr, hloc⟩
        have hrf : r ∈ (rows.filter (fun r => r.location == c)).filter
            (fun r => decide (0 < r.total_cases)) :=
          List.mem_filter.2 ⟨hrin, decide_eq_true hpos⟩
        have hmap : r.date ∈ ((rows.filter (fun r => r.location == c)).filter
            (fun r => decide (0 < r.total_cases))).map (fun r => r.date) :=
          List.mem_map_of_mem _ hrf
        rw [dateMin_eq_none hnone] at hmap
        cases hmap

/-- The summary example of the specification: an entity with total_cases 0 on
days one and two and 5 on day three. -/
def summaryRows : List CleanRow :=
  [⟨"A", 1, 0, 0, 0, 0, 0, 0, none, 0, 0, 0⟩,
   ⟨"A", 2, 0, 0, 0, 0, 0, 0, none, 0, 0, 0⟩,
   ⟨"A", 3, 5, 0, 0, 0, 0, 0, none, 0, 0, 0⟩]

/-- Witness for the summary law on the specification example (first_case_date
resolves to day three there: get_country_summary summaryRows A evaluates to
the summary with latest_date 3 and first_case_date some 3). -/
theorem country_summary_correct_witness :
    List.Pairwise cleanLe summaryRows ∧
    ((get_country_summary summaryRows ("A") = Except.error SummaryError.unknownEntity ↔
        ∀ r ∈ summaryRows, r.location ≠ "A") ∧
      (∀ s, get_country_summary summaryRows ("A") = Except.ok s →
        (∃ r ∈ summaryRows, r.location = "A" ∧ s.latest_date = r.date ∧
          s.total_cases = r.total_cases ∧ s.total_deaths = r.total_deaths ∧
          s.death_rate = r.death_rate ∧ s.vaccination_rate = r.vaccination_rate ∧
          s.cases_per_million = r.cases_per_million ∧ s.population = r.population) ∧
        (∀ r ∈ summaryRows, r.location = "A" → r.date ≤ s.latest_date) ∧
        (∀ d, s.first_case_date = some d →
          (∃ r ∈ summaryRows, r.location = "A" ∧ 0 < r.total_cases ∧ r.date = d) ∧
          (∀ r ∈ summaryRows, r.location = "A" → 0 < r.total_cases → d ≤ r.date)) ∧
        (s.first_case_date = none →
          ∀ r ∈ summaryRows, r.location = "A" → ¬0 < r.total_cases))) := by
  have hp : List.Pairwise cleanLe summaryRows := by
    refine List.Pairwise.cons ?_ (List.Pairwise.cons ?_ (List.pairwise_singleton _ _)) <;>
    · intro b hb
      fin_cases hb <;> exact Or.inr ⟨rfl, by norm_num [cleanKey]⟩
  exact ⟨hp, country_summary_correct summaryRows ("A") hp⟩

/-- Descending metric order with ties resolved by ascending location. -/
def rankTie (a b : RankEntry) : Prop :=
  b.value ≤ a.value ∧ (b.value = a.value → a.location < b.location)

theorem orderedInsert_rankTie (x : RankEntry) :
    ∀ acc : List RankEntry, List.Pairwise rankTie acc →
      (∀ y ∈ acc, x.location < y.location) →
      List.Pairwise rankTie (List.orderedInsert descLe x acc) := by
  intro acc
  induction acc with
  | nil =>
    intro _ _
    exact List.pairwise_singleton _ _
  | cons b l ih =>
    intro hacc hloc
    rw [List.orderedInsert]
    split
    · next hxb =>
      refine List.Pairwise.cons ?_ hacc
      intro z hz
      rcases List.mem_cons.1 hz with hzb | hzl
      · subst hzb
        exact ⟨hxb, fun _ => hloc _ (List.mem_cons_self _ _)⟩
      · have hbz := (List.pairwise_cons.1 hacc).1 z hzl
        exact ⟨le_trans hbz.1 hxb, fun _ => hloc z (List.mem_cons_of_mem b hzl)⟩
    · next hxb =>
      have hxv : x.value < b.value := lt_of_not_le hxb
      refine List.Pairwise.cons ?_ (ih (List.pairwise_cons.1 hacc).2
        (fun y hy => hloc y (List.mem_cons_of_mem b hy)))
      intro z hz
      rcases (List.mem_orderedInsert descLe).1 hz with hzx | hzl
      · subst hzx
        exact ⟨le_of_lt hxv, fun he => absurd he (ne_of_lt hxv)⟩
      · exact (List.pairwise_cons.1 hacc).1 z hzl

theorem insertionSort_rankTie :
    ∀ l : List RankEntry, List.Pairwise (fun a b => a.location < b.location) l →
      List.Pairwise rankTie (List.insertionSort descLe l) := by
  intro l
  induction l with
  | nil =>
    intro _
    exact List.Pairwise.nil
  | cons x xs ih =>
    intro h
    rw [List.insertionSort]
    refine orderedInsert_rankTie x _ (ih (List.pairwise_cons.1 h).2) ?_
    intro y hy
    have hy2 : y ∈ xs := ((List.perm_insertionSort descLe xs).mem_iff).1 hy
    exact (List.pairwise_cons.1 h).1 y hy2

/-- C8: each ranking of generate_insights sorts the latest per entity view in
descending order of its metric, and whenever two entities carry equal metric
values they appear in ascending order of entity name: over a latest view whose
entities are listed in strictly ascending name order (as
groupby(location).last() over the sorted cleaned frame produces), the stable
descending sort of lines 175-184 yields a list pairwise descending by value
with every tie resolved alphabetically, and the ranking is a permutation of
the (location, metric) pairs of the latest view. -/
theorem rankings_sorted_desc (metric : CleanRow → ℚ) (latest : List CleanRow)
    (h : List.Pairwise (fun a b : CleanRow => a.location < b.location) latest) :
    List.Pairwise rankTie (rankBy metric latest) ∧
      List.Perm (rankBy metric latest)
        (latest.map (fun r => RankEntry.mk r.location (metric r))) := by
  constructor
  · refine insertionSort_rankTie _ ?_
    rw [List.pairwise_map]
    exact h
  · exact List.perm_insertionSort descLe _

/-- Two cleaned rows for distinct entities tied at death_rate 2. -/
def tieRows : List CleanRow :=
  [⟨"Alpha", 1, 100, 2, 0, 0, 0, 0, some 1000, 2, 0, 100000⟩,
   ⟨"Beta", 1, 200, 4, 0, 0, 0, 0, some 2000, 2, 0, 100000⟩]

/-- Witness for the ranking law on two entities tied at death_rate 2, listed
alphabetically. -/
theorem rankings_sorted_desc_witness :
    List.Pairwise (fun a b : CleanRow => a.location < b.location) tieRows ∧
    (List.Pairwise rankTie (rankBy (fun r => r.death_rate) tieRows) ∧
      List.Perm (rankBy (fun r => r.death_rate) tieRows)
        (tieRows.map (fun r => RankEntry.mk r.location r.death_rate))) := by
  have hp : List.Pairwise (fun a b : CleanRow => a.location < b.location) tieRows := by
    refine List.Pairwise.cons ?_ (List.pairwise_singleton _ _)
    intro b hb
    fin_cases hb
    exact compare_lt_iff_lt.mp rfl
  exact ⟨hp, rankings_sorted_desc (fun r => r.death_rate) tieRows hp⟩

/-- A parsed record with every imputed cell present. -/
def AllSome (p : PRow) : Prop := ∀ col, (p.colv col).isSome = true

theorem or_getD_of_some {a : ℚ} {o : Option ℚ} (x : Option ℚ) (h : o = some a) :
    (o.or x).getD 0 = o.getD 0 := by
  rw [h]
  rfl

theorem imputeGroupGo_allsome :
    ∀ {g : List PRow} (c : Carry), (∀ p ∈ g, AllSome p) →
      imputeGroupGo c g = g.map forceRow := by
  intro g
  induction g with
  | nil =>
    intro c _
    rfl
  | cons p ps ih =>
    intro c hg
    rw [imputeGroupGo, List.map_cons,
      ih (nextCarry c p) (fun x hx => hg x (List.mem_cons_of_mem p hx))]
    have hall := hg p (List.mem_cons_self p ps)
    obtain ⟨v1, h1⟩ := Option.isSome_iff_exists.1 (hall ImpCol.tc)
    obtain ⟨v2, h2⟩ := Option.isSome_iff_exists.1 (hall ImpCol.td)
    obtain ⟨v3, h3⟩ := Option.isSome_iff_exists.1 (hall ImpCol.tv)
    obtain ⟨v4, h4⟩ := Option.isSome_iff_exists.1 (hall ImpCol.pv)
    obtain ⟨v5, h5⟩ := Option.isSome_iff_exists.1 (hall ImpCol.nc)
    obtain ⟨v6, h6⟩ := Option.isSome_iff_exists.1 (hall ImpCol.nd)
    have h1f : p.total_cases = some v1 := h1
    have h2f : p.total_deaths = some v2 := h2
    have h3f : p.total_vaccinations = some v3 := h3
    have h4f : p.people_vaccinated = some v4 := h4
    have h5f : p.new_cases = some v5 := h5
    have h6f : p.new_deaths = some v6 := h6
    have houtr : outRow c p = forceRow p := by
      unfold outRow forceRow
      rw [or_getD_of_some _ h1f, or_getD_of_some _ h2f, or_getD_of_some _ h3f,
        or_getD_of_some _ h4f, or_getD_of_some _ h5f, or_getD_of_some _ h6f]
    rw [houtr]

theorem imputeAll_allsome {l : List PRow} (hl : ∀ p ∈ l, AllSome p) :
    imputeAll l = l.map forceRow := by
  unfold imputeAll
  have h1 : (runsBy (fun r => r.location) l).map (imputeGroupGo Carry.start) =
      (runsBy (fun r => r.location) l).map (List.map forceRow) := by
    apply List.map_congr_left
    intro g hg
    apply imputeGroupGo_allsome
    intro p hp
    apply hl
    have hmem : p ∈ (runsBy (fun r => r.location) l).flatten :=
      List.mem_flatten.2 ⟨g, hg, hp⟩
    rwa [runsBy_flatten] at hmem
  rw [h1, ← List.map_flatten, runsBy_flatten]

theorem parseDates_toRaw : ∀ rows : List CleanRow,
    parseDates (rows.map toRaw) = some (rows.map pOfClean) := by
  intro rows
  induction rows with
  | nil => rfl
  | cons r rs ih =>
    rw [List.map_cons, parseDates, ih]
    rfl

theorem clean_rows_key_eq {l : List PRow} :
    ((imputeAll l).map derive).map cleanKey = l.map prowKey := by
  rw [List.map_map]
  have h : (cleanKey ∘ derive) = (fun r : Row => (r.location, r.date)) := rfl
  rw [h, imputeAll_map_locdate]
  rfl

theorem clean_ok_sorted {df : List RawRecord} {fo : Option (List String)}
    {rows : List CleanRow} (h : clean_covid_data df fo = Except.ok rows) :
    List.Pairwise cleanLe rows := by
  obtain ⟨parsed, hp, hrows⟩ := clean_ok_shape h
  subst hrows
  have hs : List.Pairwise prowLe (List.insertionSort prowLe parsed) :=
    List.sorted_insertionSort prowLe parsed
  have h1 : List.Pairwise keyLe ((List.insertionSort prowLe parsed).map prowKey) := by
    rw [List.pairwise_map]
    exact hs
  have h2 : List.Pairwise keyLe
      ((((imputeAll (List.insertionSort prowLe parsed)).map derive)).map cleanKey) := by
    rw [clean_rows_key_eq]
    exact h1
  rw [List.pairwise_map] at h2
  exact h2

/-- C9: clean is idempotent on its own output: whenever clean succeeds on a
dataset, feeding the cleaned frame (as raw records) back into clean with the
same focus list returns exactly the same cleaned frame: the filter keeps every
row, the already parsed dates convert unchanged, the stable sort leaves the
sorted frame in place, the imputation is the identity on a frame with no
missing cells in the six key columns, and the derived metrics are recomputed
to their previous values. -/
theorem clean_idempotent (df : List RawRecord) (fo : Option (List String))
    (rows : List CleanRow) (h : clean_covid_data df fo = Except.ok rows) :
    clean_covid_data (rows.map toRaw) fo = Except.ok rows := by
  have hlocs := clean_ok_locs h
  have hsorted := clean_ok_sorted h
  obtain ⟨parsed, hp, hrows⟩ := clean_ok_shape h
  unfold clean_covid_data
  dsimp only
  have hfilter : (rows.map toRaw).filter
      (fun r => (focusOrDefault fo).contains r.location) = rows.map toRaw := by
    rw [List.filter_eq_self]
    intro a ha
    obtain ⟨r, hr, rfl⟩ := List.mem_map.1 ha
    exact hlocs r hr
  rw [hfilter, parseDates_toRaw]
  dsimp only
  have hps : List.Pairwise prowLe (rows.map pOfClean) := by
    rw [List.pairwise_map]
    exact hsorted
  rw [List.Sorted.insertionSort_eq hps]
  have hall : ∀ p ∈ rows.map pOfClean, AllSome p := by
    intro p hpm
    obtain ⟨r, _, rfl⟩ := List.mem_map.1 hpm
    intro col
    cases col <;> rfl
  rw [imputeAll_allsome hall]
  subst hrows
  rw [List.map_map, List.map_map, List.map_map]
  rfl

/-- A one record dataset for the idempotence witness. -/
def idemDf : List RawRecord :=
  [⟨"Kenya", some 1, none, none, none, none, none, none, none⟩]

/-- Witness for idempotence: re-cleaning the cleaned one row frame of idemDf
returns it unchanged. -/
theorem clean_idempotent_witness :
    clean_covid_data
        ([(⟨"Kenya", 1, 0, 0, 0, 0, 0, 0, none, 0, 0, 0⟩ : CleanRow)].map toRaw)
        (some ["Kenya"]) =
      Except.ok [(⟨"Kenya", 1, 0, 0, 0, 0, 0, 0, none, 0, 0, 0⟩ : CleanRow)] :=
  clean_idempotent idemDf (some ["Kenya"])
    [(⟨"Kenya", 1, 0, 0, 0, 0, 0, 0, none, 0, 0, 0⟩ : CleanRow)] rfl

/-- Witness for the empty focus law at a one record dataset. -/
theorem clean_empty_focus_returns_empty_witness :
    clean_covid_data [exampleRawA] (some ([] : List String)) = Except.ok [] :=
  clean_empty_focus_returns_empty [exampleRawA]
